import Mathlib

set_option autoImplicit false

/-!
Verification of the BOM Space ERP storage core (src/bom.py).

The application keeps all metadata in a single JSON document with
collections `users`, `projects`, `uploads`, `messages`, `dashboards`,
and keeps uploaded file bytes as blobs in a flat directory.  Every
operation is load-document, mutate in memory, save-document.  We embed
the document as a Lean structure, the blob directory as the list of
filenames present on disk, and each Python helper as a pure function on
those.  Nondeterministic inputs of the Python code (the UTC timestamp
`datetime.utcnow().isoformat()` and the generated storage key
`uuid4().hex + "_" + original_name`) are taken as explicit parameters.
-/

/-- A record of the `users` collection: `{id, name, role, team?, pin}`.
`team` is optional because `user.get("team")` may be absent (Python `None`);
the Python comparison `None == someString` is `False`, matching `Option` equality. -/
structure User where
  id : Nat
  name : String
  role : String
  team : Option String
  pin : String
deriving Repr, DecidableEq

/-- A record of the `uploads` collection:
`{id, project_id, project_name, team, uploaded_by, filename, original_name, ts, final}`. -/
structure Upload where
  id : Nat
  project_id : Nat
  project_name : String
  team : String
  uploaded_by : String
  filename : String
  original_name : String
  ts : String
  final : Bool
deriving Repr, DecidableEq

/-- A record of the `messages` collection: `{from, to, project, team, text, ts}`.
`frm` embeds the `from` field and `toUser` the `to` field;
`toUser = none` encodes Python `None`, meaning a broadcast to the whole team. -/
structure Message where
  frm : String
  toUser : Option String
  project : String
  team : String
  text : String
  ts : String
deriving Repr, DecidableEq

/-- The persisted JSON document (the collections the verified operations touch). -/
structure Doc where
  users : List User
  uploads : List Upload
  messages : List Message
deriving Repr, DecidableEq

/-- The blob store: the set of storage filenames currently present in the
upload directory, as a list. -/
abbrev Blobs := List String

/-- Python `str.lower()` applied to one character (ASCII case mapping,
which covers the alphabet this application uses). -/
def lowerChar (c : Char) : Char := c.toLower

/-- Python `str.lower()`: lowercase every character of the string. -/
def lowerStr (s : String) : String := ⟨s.data.map lowerChar⟩

/-- Python `str.strip()`: drop whitespace from both ends of the string. -/
def trimStr (s : String) : String :=
  ⟨((s.data.dropWhile Char.isWhitespace).reverse.dropWhile Char.isWhitespace).reverse⟩

/-- `find_user(name, role)` (bom.py lines 30-36): first stored user whose
name matches case-insensitively (`u["name"].lower() == name.lower()`) and
whose role matches exactly. -/
def find_user (users : List User) (name role : String) : Option User :=
  users.find? (fun u => lowerStr u.name == lowerStr name && u.role == role)

/-- The login handler (bom.py lines 145-156): looks up
`find_user(username.strip(), role_choice)` and then succeeds iff
`pin.strip() == user.get("pin")`. -/
def login (users : List User) (username role pin : String) : Option User :=
  match find_user users (trimStr username) role with
  | none => none
  | some u => if trimStr pin == u.pin then some u else none

/-- Id allocation in `add_upload` (bom.py line 47):
`max([u["id"] for u in uploads], default=0) + 1`. -/
def next_id (uploads : List Upload) : Nat :=
  (uploads.map Upload.id).foldr max 0 + 1

/-- `add_upload` (bom.py lines 39-59): writes the blob under the fresh
storage key `fname`, appends a new record with id `next_id`, saves, and
returns the new entry.  `fname`, `ts` stand for the generated
`uuid4().hex + "_" + file.name` and `utcnow().isoformat()`. -/
def add_upload (d : Doc) (blobs : Blobs) (project_id : Nat)
    (project_name team uploaded_by : String) (fname original_name ts : String)
    (final : Bool) : Upload × Doc × Blobs :=
  let entry : Upload :=
    { id := next_id d.uploads, project_id := project_id,
      project_name := project_name, team := team, uploaded_by := uploaded_by,
      filename := fname, original_name := original_name, ts := ts,
      final := final }
  (entry, { d with uploads := d.uploads ++ [entry] }, blobs ++ [fname])

/-- The loop of `replace_upload` (bom.py lines 63-82): scan the uploads in
order; at the first record with the given id, delete its old blob if present
(`if old_path.exists(): old_path.unlink()`), write the new blob, update
`filename`, `original_name`, `uploaded_by`, `ts` in place, save, and return
the record; later records are not examined.  Returns
(returned record, new uploads list, new blob store, whether save ran). -/
def replaceGo (uploads : List Upload) (blobs : Blobs) (upload_id : Nat)
    (fname oname replacer ts : String) : Option Upload × List Upload × Blobs × Bool :=
  match uploads with
  | [] => (none, [], blobs, false)
  | u :: rest =>
    if u.id = upload_id then
      let u' : Upload :=
        { u with filename := fname, original_name := oname,
                 uploaded_by := replacer, ts := ts }
      (some u', u' :: rest, blobs.erase u.filename ++ [fname], true)
    else
      let r := replaceGo rest blobs upload_id fname oname replacer ts
      (r.1, u :: r.2.1, r.2.2.1, r.2.2.2)

/-- `replace_upload(upload_id, file_obj, uploaded_by)` (bom.py lines 61-82)
on the whole document.  When no record has `upload_id` it returns `None`
without saving (the `saved` flag is `false` and the document is unchanged). -/
def replace_upload (d : Doc) (blobs : Blobs) (upload_id : Nat)
    (fname oname replacer ts : String) : Option Upload × Doc × Blobs × Bool :=
  let r := replaceGo d.uploads blobs upload_id fname oname replacer ts
  (r.1, { d with uploads := r.2.1 }, r.2.2.1, r.2.2.2)

/-- The loop of `remove_upload` (bom.py lines 86-97): walk the uploads in
order, dropping every record whose id matches and deleting its blob when it
exists on disk (`if p.exists(): p.unlink()`, exceptions swallowed — a
missing blob is silently tolerated); all other records are kept. -/
def removeGo (uploads : List Upload) (upload_id : Nat) (blobs : Blobs) :
    List Upload × Blobs :=
  match uploads with
  | [] => ([], blobs)
  | u :: rest =>
    if u.id = upload_id then removeGo rest upload_id (blobs.erase u.filename)
    else
      let r := removeGo rest upload_id blobs
      (u :: r.1, r.2)

/-- `remove_upload(upload_id)` (bom.py lines 84-99) on the whole document. -/
def remove_upload (d : Doc) (blobs : Blobs) (upload_id : Nat) : Doc × Blobs :=
  let r := removeGo d.uploads upload_id blobs
  ({ d with uploads := r.1 }, r.2)

/-- The Final BOM tab Remove handler (bom.py lines 413-421).  Unlike
`remove_upload` it runs `os.remove(file_path)` with no existence check
inside a `try`: when the blob is missing, `os.remove` raises, the `except`
branch shows an error, and neither the record filtering nor the save is
reached — the document is left unchanged. -/
def final_remove_handler (d : Doc) (blobs : Blobs) (u : Upload) : Doc × Blobs :=
  if u.filename ∈ blobs then
    ({ d with uploads := d.uploads.filter (fun x => x.id != u.id) },
     blobs.erase u.filename)
  else (d, blobs)

/-- The Personal tab `can_edit` computation (bom.py lines 243-250):
role in ("project_lead","admin","superadmin"), or team_lead of the
upload's team, or the uploader themselves. -/
def can_edit_personal (user : User) (u : Upload) : Bool :=
  (user.role == "project_lead" || user.role == "admin" || user.role == "superadmin")
  || (user.role == "team_lead" && user.team == some u.team)
  || (user.name == u.uploaded_by)

/-- The Central tab `can_edit` computation (bom.py lines 325-330) for an
upload shown in the group of `team`: role in
("project_lead","admin","superadmin") or team_lead of that team.
There is no uploader clause here. -/
def can_edit_central (user : User) (team : String) : Bool :=
  (user.role == "project_lead" || user.role == "admin" || user.role == "superadmin")
  || (user.role == "team_lead" && user.team == some team)

/-- The spec's permission rule for edit/replace/remove of an upload, written
from the spec's words for comparison with the code's checks: actor is the
uploader, OR actor is team_lead of that upload's team, OR actor role is one
of project_lead, admin, superadmin. -/
def spec_can_edit (user : User) (u : Upload) : Bool :=
  (user.name == u.uploaded_by)
  || (user.role == "team_lead" && user.team == some u.team)
  || (user.role == "project_lead" || user.role == "admin" || user.role == "superadmin")

/-- The navigation tab list (bom.py lines 180-185): base tabs, with
"Final BOM" inserted at index 2 for project_lead/admin/superadmin and
"Assigning"/"Admin" appended for admin/superadmin. -/
def tabs_for (role : String) : List String :=
  let t :=
    if role == "project_lead" || role == "admin" || role == "superadmin" then
      ["Personal", "Central", "Final BOM", "Analysis", "Messenger"]
    else ["Personal", "Central", "Analysis", "Messenger"]
  if role == "admin" || role == "superadmin" then t ++ ["Assigning", "Admin"] else t

/-- Availability of the upload-new-Final-BOM action: the Final BOM tab must
be reachable for the role (bom.py lines 181-182) and the uploader widget is
shown only under `user["role"] == "project_lead"` (bom.py line 429). -/
def can_upload_final (role : String) : Bool :=
  (tabs_for role).contains "Final BOM" && role == "project_lead"

/-- `get_messages(project, team)` (bom.py lines 111-118).  Python's
`if project:` skips the filter when the argument is `None` or the empty
string (falsy), so the empty string acts as no filter, not as a value. -/
def get_messages (msgs : List Message) (project team : Option String) :
    List Message :=
  let m1 :=
    match project with
    | none => msgs
    | some p => if p = "" then msgs else msgs.filter (fun m => m.project == p)
  match team with
  | none => m1
  | some t => if t = "" then m1 else m1.filter (fun m => m.team == t)

/-- The Messenger tab recent-messages filter (bom.py line 552):
`[m for m in msgs if m.get("to") in (None, user["name"])]` — a message is
relevant to a user when it is a broadcast (`to = None`) or addressed to them. -/
def relevant_messages (msgs : List Message) (userName : String) : List Message :=
  msgs.filter (fun m => m.toUser == none || m.toUser == some userName)

/-- The Admin tab Reset PIN handler (bom.py lines 661-666): every user
record whose id matches the target gets `pin := "0000"`; all records are
otherwise untouched. -/
def reset_pin (users : List User) (target_id : Nat) : List User :=
  users.map (fun x => if x.id = target_id then { x with pin := "0000" } else x)

/-! ## Concrete sample data used by counterexamples and witnesses -/

/-- An empty document. -/
def d0 : Doc := ⟨[], [], []⟩

/-- A sample upload owned by member alice in team Design. -/
def upl0 : Upload := ⟨1, 1, "Project 1", "Design", "alice", "f1", "a.csv", "t1", false⟩

/-- A document holding only `upl0`. -/
def d5 : Doc := ⟨[], [upl0], []⟩

/-- A member of team Design, the uploader of `upl0`. -/
def memUser : User := ⟨1, "alice", "member", some "Design", "1111"⟩

/-- Two stored users sharing (name, role) but holding different PINs. -/
def dupUsers : List User :=
  [⟨1, "a", "member", none, "1111"⟩, ⟨2, "a", "member", none, "2222"⟩]

/-- A sample broadcast message in Project 1 / Design. -/
def m0 : Message := ⟨"x", none, "Project 1", "Design", "hi", "t1"⟩

/-- First create on the empty store: assigns id 1. -/
def st1 : Upload × Doc × Blobs := add_upload d0 [] 1 "Project 1" "Design" "alice" "f1" "a.csv" "t1" false

/-- Second create: assigns id 2. -/
def st2 : Upload × Doc × Blobs := add_upload st1.2.1 st1.2.2 1 "Project 1" "Design" "alice" "f2" "b.csv" "t2" false

/-- Remove the upload the second create produced (id 2). -/
def st3 : Doc × Blobs := remove_upload st2.2.1 st2.2.2 st2.1.id

/-- A further create after that removal. -/
def st4 : Upload × Doc × Blobs := add_upload st3.1 st3.2 1 "Project 1" "Design" "bob" "f3" "c.csv" "t3" false

/-! ## Helper lemmas -/

/-- Every element of a list of naturals is bounded by its right fold with `max`. -/
theorem mem_le_foldr_max (l : List Nat) : ∀ a ∈ l, a ≤ l.foldr max 0 := by
  induction l with
  | nil => intro a ha; cases ha
  | cons b t ih =>
    intro a ha
    rcases List.mem_cons.mp ha with h | h
    · subst h; exact le_max_left _ _
    · exact le_trans (ih a h) (le_max_right _ _)

/-- A fresh id exceeds the id of every record already present. -/
theorem id_lt_next_id (l : List Upload) (u : Upload) (hu : u ∈ l) :
    u.id < next_id l := by
  have h := mem_le_foldr_max (l.map Upload.id) u.id (List.mem_map_of_mem _ hu)
  simp only [next_id]
  omega

/-- The record list produced by the `remove_upload` loop is a filter. -/
theorem removeGo_fst (l : List Upload) (upload_id : Nat) (blobs : Blobs) :
    (removeGo l upload_id blobs).1 = l.filter (fun u => u.id != upload_id) := by
  induction l generalizing blobs with
  | nil => simp [removeGo]
  | cons a t ih =>
    by_cases h : a.id = upload_id
    · simp [removeGo, h, ih]
    · simp [removeGo, h, ih]

/-- When no record matches, the `remove_upload` loop changes nothing. -/
theorem removeGo_noop (l : List Upload) (upload_id : Nat) (blobs : Blobs)
    (h : ∀ u ∈ l, u.id ≠ upload_id) : removeGo l upload_id blobs = (l, blobs) := by
  induction l with
  | nil => rfl
  | cons a t ih =>
    have ha := h a (List.mem_cons_self a t)
    simp [removeGo, ha, ih (fun u hu => h u (List.mem_cons_of_mem a hu))]

/-! ## Claim theorems -/

/-- Claim C5, counterexample: the Final BOM tab Remove handler does not
tolerate a missing blob.  With upload `upl0` present in the document but
its blob absent from disk, the handler leaves the document unchanged: the
metadata record is NOT removed, contrary to the claim that removal
succeeds even when the blob file does not exist. -/
theorem final_remove_handler_missing_blob_keeps_record :
    d5.uploads = [upl0] ∧ upl0.filename ∉ ([] : Blobs) ∧
      final_remove_handler d5 [] upl0 = (d5, []) :=
  ⟨rfl, by simp, rfl⟩

/-- Claim C5 (amended): the registry operation `remove_upload` removes the
matching metadata record unconditionally — in particular it succeeds, still
removing the record, when the blob named by its filename is absent from the
blob store (the loop skips a missing blob silently). -/
theorem remove_upload_removes_record (d : Doc) (blobs : Blobs) (upload_id : Nat) :
    (remove_upload d blobs upload_id).1.uploads =
      d.uploads.filter (fun u => u.id != upload_id) := by
  simp [remove_upload, removeGo_fst]

/-- Claim C9: `remove_upload` is idempotent at the metadata level: when no
record carries the id, the document and blob store are returned unchanged,
and applying the operation twice yields the same uploads collection as
applying it once. -/
theorem remove_upload_idempotent (d : Doc) (blobs : Blobs) (upload_id : Nat) :
    ((∀ u ∈ d.uploads, u.id ≠ upload_id) →
      remove_upload d blobs upload_id = (d, blobs)) ∧
    (remove_upload (remove_upload d blobs upload_id).1
        (remove_upload d blobs upload_id).2 upload_id).1.uploads =
      (remove_upload d blobs upload_id).1.uploads := by
  constructor
  · intro h
    simp [remove_upload, removeGo_noop d.uploads upload_id blobs h]
  · simp only [remove_upload, removeGo_fst, List.filter_filter]
    congr 1
    funext u
    rw [Bool.and_self]

/-- Witness for C9 at a concrete input: removing id 7 from a document whose
only upload has id 1 changes nothing. -/
theorem remove_upload_idempotent_witness :
    remove_upload d5 [] 7 = (d5, []) :=
  (remove_upload_idempotent d5 [] 7).1 (by decide)

/-- Claim C6: the upload-new-Final-BOM action is available exactly for the
role project_lead: the Final BOM tab is in the role's tab list and the
uploader widget is gated on `role == "project_lead"`, so admin and
superadmin (who do see the tab) cannot perform the base upload action. -/
theorem can_upload_final_iff_project_lead (role : String) :
    can_upload_final role = true ↔ role = "project_lead" := by
  constructor
  · intro h
    have h2 := (Bool.and_eq_true _ _).mp h |>.2
    exact beq_iff_eq.mp h2
  · rintro rfl
    rfl

/-- Claim C1, counterexample: id allocation does reuse a freed id.
Starting from the empty store, the second create assigns id 2; `st3`
removes that upload (no record with id 2 survives), and the next create
assigns id 2 again, because `add_upload` allocates `max(existing ids)+1`,
which forgets removed ids. -/
theorem upload_id_reuse_after_remove :
    st2.1.id = 2 ∧
      (st3.1.uploads.all (fun u => u.id != st2.1.id)) = true ∧
      st4.1.id = st2.1.id :=
  ⟨rfl, rfl, rfl⟩

/-- Claim C1 (amended): each create assigns an id strictly greater than
every id present in the uploads collection at that moment, so two creates
in a row yield strictly increasing (hence unique) ids; but ids of removed
uploads are not remembered and can be reassigned. -/
theorem add_upload_id_fresh (d : Doc) (blobs : Blobs) (pid pid2 : Nat)
    (pn tm ub f1 o1 t1 pn2 tm2 ub2 f2 o2 t2 : String) (fin1 fin2 : Bool) :
    (∀ u ∈ d.uploads, u.id < (add_upload d blobs pid pn tm ub f1 o1 t1 fin1).1.id) ∧
    (add_upload d blobs pid pn tm ub f1 o1 t1 fin1).1.id <
      (add_upload (add_upload d blobs pid pn tm ub f1 o1 t1 fin1).2.1
        (add_upload d blobs pid pn tm ub f1 o1 t1 fin1).2.2
        pid2 pn2 tm2 ub2 f2 o2 t2 fin2).1.id := by
  constructor
  · intro u hu
    exact id_lt_next_id d.uploads u hu
  · apply id_lt_next_id
    simp [add_upload]

/-- Witness for C1's amended statement at a concrete input: in `d5` (one
upload with id 1), the freshly created upload's id exceeds the id of the
existing record. -/
theorem add_upload_id_fresh_witness :
    upl0 ∈ d5.uploads ∧
      upl0.id < (add_upload d5 [] 1 "Project 1" "Design" "bob" "f9" "d.csv" "t9" false).1.id :=
  ⟨by decide,
   (add_upload_id_fresh d5 [] 1 1 "Project 1" "Design" "bob" "f9" "d.csv" "t9"
      "Project 1" "Design" "bob" "f8" "e.csv" "t10" false false).1 upl0 (by decide)⟩

/-- Claim C2, counterexample: in the Central tab the uploader clause is
missing.  `memUser` is the uploader of `upl0` (so the spec's permission
rule grants edit/remove), yet the Central tab's `can_edit` computation
denies the action for that upload's team group. -/
theorem central_can_edit_denies_uploader :
    spec_can_edit memUser upl0 = true ∧ can_edit_central memUser upl0.team = false := by
  constructor <;> rfl

/-- Claim C2 (amended): the Personal tab offers edit/replace/remove exactly
under the spec's disjunction (uploader, or team_lead of the upload's team,
or role in project_lead/admin/superadmin); the Central tab omits the
uploader clause and offers the action exactly to a team_lead of the
displayed team or to project_lead/admin/superadmin (the Final BOM tab
further restricts to the role clause alone). -/
theorem can_edit_personal_central_characterization (user : User) (u : Upload) :
    (can_edit_personal user u = true ↔ spec_can_edit user u = true) ∧
    (can_edit_central user u.team = true ↔
      (user.role = "team_lead" ∧ user.team = some u.team) ∨
        user.role = "project_lead" ∨ user.role = "admin" ∨ user.role = "superadmin") := by
  constructor
  · simp only [can_edit_personal, spec_can_edit, Bool.or_eq_true, Bool.and_eq_true,
      beq_iff_eq]
    tauto
  · simp only [can_edit_central, Bool.or_eq_true, Bool.and_eq_true, beq_iff_eq]
    tauto

/-- The `replace_upload` loop on a list whose first match is `u`: the
records before `u` and after `u` are returned untouched, `u` gets exactly
`filename`, `original_name`, `uploaded_by`, `ts` updated, the old blob is
erased and the new one written, and the save flag is set. -/
theorem replaceGo_first_match (l1 : List Upload) (u : Upload) (l2 : List Upload)
    (blobs : Blobs) (upload_id : Nat) (fname oname replacer ts : String)
    (hfirst : ∀ x ∈ l1, x.id ≠ upload_id) (hid : u.id = upload_id) :
    replaceGo (l1 ++ u :: l2) blobs upload_id fname oname replacer ts =
      (some { u with filename := fname, original_name := oname,
                     uploaded_by := replacer, ts := ts },
       l1 ++ { u with filename := fname, original_name := oname,
                      uploaded_by := replacer, ts := ts } :: l2,
       blobs.erase u.filename ++ [fname], true) := by
  induction l1 with
  | nil => simp [replaceGo, hid]
  | cons a t ih =>
    have ha : a.id ≠ upload_id := hfirst a (List.mem_cons_self a t)
    simp [replaceGo, ha, ih (fun x hx => hfirst x (List.mem_cons_of_mem a hx))]

/-- The `replace_upload` loop finds nothing when no record matches. -/
theorem replaceGo_absent (l : List Upload) (blobs : Blobs) (upload_id : Nat)
    (fname oname replacer ts : String) (h : ∀ x ∈ l, x.id ≠ upload_id) :
    replaceGo l blobs upload_id fname oname replacer ts = (none, l, blobs, false) := by
  induction l with
  | nil => rfl
  | cons a t ih =>
    have ha := h a (List.mem_cons_self a t)
    simp [replaceGo, ha, ih (fun x hx => h x (List.mem_cons_of_mem a hx))]

/-- Claim C3: on a document whose uploads decompose as `l1 ++ u :: l2` with
`u` the first record carrying `upload_id`, `replace_upload` keeps `u`'s
`id` and `final` flag (and its project/team fields), sets its `filename`,
`original_name`, `ts` to the fresh values and `uploaded_by` to the
replacer, leaves every other upload record untouched, and saves. -/
theorem replace_upload_updates_in_place (d : Doc) (blobs : Blobs)
    (l1 l2 : List Upload) (u : Upload) (upload_id : Nat)
    (fname oname replacer ts : String)
    (hdec : d.uploads = l1 ++ u :: l2)
    (hfirst : ∀ x ∈ l1, x.id ≠ upload_id) (hid : u.id = upload_id) :
    replace_upload d blobs upload_id fname oname replacer ts =
      (some { u with filename := fname, original_name := oname,
                     uploaded_by := replacer, ts := ts },
       { d with uploads := l1 ++ { u with filename := fname, original_name := oname,
                                          uploaded_by := replacer, ts := ts } :: l2 },
       blobs.erase u.filename ++ [fname], true) := by
  simp only [replace_upload, hdec,
    replaceGo_first_match l1 u l2 blobs upload_id fname oname replacer ts hfirst hid]

/-- The record `upl0` after a replacement with fresh file "f9"/"n.csv" by
carol at time "t9". -/
def upl0Replaced : Upload :=
  { upl0 with filename := "f9", original_name := "n.csv",
              uploaded_by := "carol", ts := "t9" }

/-- Witness for C3 at a concrete input: replacing the upload with id 1 in
`d5` (blob store `["f1"]`) refreshes the four content fields and keeps id
and final flag. -/
theorem replace_upload_updates_in_place_witness :
    d5.uploads = [] ++ upl0 :: [] ∧ upl0.id = 1 ∧
      replace_upload d5 ["f1"] 1 "f9" "n.csv" "carol" "t9" =
        (some upl0Replaced,
         { d5 with uploads := [] ++ upl0Replaced :: [] },
         (["f1"] : Blobs).erase upl0.filename ++ ["f9"], true) :=
  ⟨rfl, rfl,
   replace_upload_updates_in_place d5 ["f1"] [] [] upl0 1 "f9" "n.csv" "carol" "t9"
     rfl (by intro x hx; cases hx) rfl⟩

/-- Claim C4: `replace_upload` on an id that no upload carries returns the
NotFound result `none`, leaves the document and the blob store unchanged,
and performs no save. -/
theorem replace_upload_absent_not_found (d : Doc) (blobs : Blobs)
    (upload_id : Nat) (fname oname replacer ts : String)
    (h : ∀ x ∈ d.uploads, x.id ≠ upload_id) :
    replace_upload d blobs upload_id fname oname replacer ts =
      (none, d, blobs, false) := by
  simp only [replace_upload, replaceGo_absent d.uploads blobs upload_id fname oname replacer ts h]

/-- Witness for C4 at a concrete input: replacing the absent id 7 in `d5`
is a no-op that returns `none` with the save flag down. -/
theorem replace_upload_absent_not_found_witness :
    replace_upload d5 ["f1"] 7 "f9" "n.csv" "carol" "t9" = (none, d5, ["f1"], false) :=
  replace_upload_absent_not_found d5 ["f1"] 7 "f9" "n.csv" "carol" "t9" (by decide)

/-- The second user of `dupUsers`: same (name, role) as the first, other PIN. -/
def dupSecond : User := ⟨2, "a", "member", none, "2222"⟩

/-- Claim C7, counterexample: login is decided by the FIRST stored user
matching (name case-insensitively, role), not by any matching user.  In
`dupUsers`, `dupSecond` matches the supplied triple ("a", "member", "2222")
on all three comparisons, yet login fails because `find_user` returns the
first record, whose PIN differs. -/
theorem login_shadowed_by_first_match :
    login dupUsers "a" "member" "2222" = none ∧
      dupSecond ∈ dupUsers ∧
      lowerStr dupSecond.name = lowerStr (trimStr "a") ∧
      dupSecond.role = "member" ∧ dupSecond.pin = trimStr "2222" :=
  ⟨rfl, by decide, rfl, rfl, rfl⟩

/-- Claim C7 (amended): login succeeds iff the first stored user whose name
matches the stripped supplied name case-insensitively and whose role
matches exactly has exactly the stripped supplied PIN; when no two stored
users share (lowercased name, role), this is equivalent to the claim's
form: some stored user matches on all three comparisons. -/
theorem login_succeeds_iff (users : List User) (username role pin : String)
    (hnd : (users.map (fun u => (lowerStr u.name, u.role))).Nodup) :
    (login users username role pin).isSome = true ↔
      ∃ u ∈ users, lowerStr u.name = lowerStr (trimStr username) ∧
        u.role = role ∧ u.pin = trimStr pin := by
  induction users with
  | nil => simp [login, find_user]
  | cons a t ih =>
    rw [List.map_cons, List.nodup_cons] at hnd
    obtain ⟨hka, hndt⟩ := hnd
    by_cases hmatch : lowerStr a.name = lowerStr (trimStr username) ∧ a.role = role
    · have hfind : find_user (a :: t) (trimStr username) role = some a := by
        unfold find_user
        exact List.find?_cons_of_pos t (by simp [hmatch.1, hmatch.2])
      by_cases hpin : trimStr pin = a.pin
      · simp only [login, hfind, hpin, beq_self_eq_true, if_true, Option.isSome_some]
        simp only [true_iff]
        exact ⟨a, List.mem_cons_self a t, hmatch.1, hmatch.2, rfl⟩
      · have hbeq : (trimStr pin == a.pin) = false := beq_eq_false_iff_ne.mpr hpin
        simp only [login, hfind, hbeq, if_false, Option.isSome_none]
        constructor
        · intro h; cases h
        · rintro ⟨u, hu, h1, h2, h3⟩
          rcases List.mem_cons.mp hu with rfl | hu'
          · exact absurd h3.symm hpin
          · refine absurd ?_ hka
            have hk : (lowerStr u.name, u.role) ∈
                t.map (fun v => (lowerStr v.name, v.role)) :=
              List.mem_map_of_mem _ hu'
            rw [h1, h2] at hk
            rw [hmatch.1, hmatch.2]
            exact hk
    · have hpred : (lowerStr a.name == lowerStr (trimStr username) && a.role == role) = false := by
        cases h1 : (lowerStr a.name == lowerStr (trimStr username)) <;>
          cases h2 : (a.role == role) <;> simp_all [beq_iff_eq]
      have hfind : find_user (a :: t) (trimStr username) role =
          find_user t (trimStr username) role := by
        unfold find_user
        exact List.find?_cons_of_neg t (by simp [hpred])
      have hlog : login (a :: t) username role pin = login t username role pin := by
        simp only [login, hfind]
      rw [hlog, ih hndt]
      constructor
      · rintro ⟨u, hu, hs⟩
        exact ⟨u, List.mem_cons_of_mem a hu, hs⟩
      · rintro ⟨u, hu, h1, h2, h3⟩
        rcases List.mem_cons.mp hu with rfl | hu'
        · exact absurd ⟨h1, h2⟩ hmatch
        · exact ⟨u, hu', h1, h2, h3⟩

/-- A store with a single user Alice. -/
def aliceOnly : List User := [⟨1, "Alice", "member", none, "1111"⟩]

/-- Witness for C7's amended statement at a concrete input: with the single
stored user Alice, the supplied triple (" alice ", "member", " 1111 ")
logs in, and the equivalence holds. -/
theorem login_succeeds_iff_witness :
    (aliceOnly.map (fun u => (lowerStr u.name, u.role))).Nodup ∧
      ((login aliceOnly " alice " "member" " 1111 ").isSome = true ↔
        ∃ u ∈ aliceOnly, lowerStr u.name = lowerStr (trimStr " alice ") ∧
          u.role = "member" ∧ u.pin = trimStr " 1111 ") :=
  ⟨by decide, login_succeeds_iff aliceOnly " alice " "member" " 1111 " (by decide)⟩

/-- Claim C8, counterexample: the conjunctive-filter reading fails for the
empty string, which Python treats as falsy and hence as "no filter".  For a
store holding one message in Project 1 / Design, listing with
project = "" and team = "Design" returns that message, although no message
has project equal to "". -/
theorem get_messages_empty_string_skips_filter :
    get_messages [m0] (some "") (some "Design") = [m0] ∧
      ([m0].filter (fun m => m.project == "" && m.team == "Design")) = [] :=
  ⟨rfl, rfl⟩

/-- Claim C8 (amended): for non-empty filter strings, `get_messages`
returns exactly the messages whose project and team both match, in their
original insertion order (the result is literally the conjunctive filter of
the stored list); and a broadcast message (to = None) that matches the
filters appears in the filtered per-recipient view of every user name. -/
theorem get_messages_conjunctive (msgs : List Message) (p t userName : String)
    (hp : p ≠ "") (ht : t ≠ "") :
    get_messages msgs (some p) (some t) =
        msgs.filter (fun m => m.project == p && m.team == t) ∧
      ∀ m ∈ msgs, m.toUser = none → m.project = p → m.team = t →
        m ∈ relevant_messages (get_messages msgs (some p) (some t)) userName := by
  have hfilter : get_messages msgs (some p) (some t) =
      msgs.filter (fun m => m.project == p && m.team == t) := by
    simp only [get_messages, if_neg hp, if_neg ht, List.filter_filter]
    congr 1
    funext m
    rw [Bool.and_comm]
  refine ⟨hfilter, ?_⟩
  intro m hm h0 h1 h2
  unfold relevant_messages
  refine List.mem_filter.mpr ⟨?_, ?_⟩
  · rw [hfilter]
    exact List.mem_filter.mpr ⟨hm, by simp [h1, h2]⟩
  · simp [h0]

/-- Witness for C8's amended statement at a concrete input: with the single
broadcast message `m0`, filtering by its project and team returns it, and
it is visible in bob's per-recipient view. -/
theorem get_messages_conjunctive_witness :
    ("Project 1" : String) ≠ "" ∧ ("Design" : String) ≠ "" ∧
      (get_messages [m0] (some "Project 1") (some "Design") =
          [m0].filter (fun m => m.project == "Project 1" && m.team == "Design") ∧
        ∀ m ∈ [m0], m.toUser = none → m.project = "Project 1" → m.team = "Design" →
          m ∈ relevant_messages
            (get_messages [m0] (some "Project 1") (some "Design")) "bob") :=
  ⟨by decide, by decide,
   get_messages_conjunctive [m0] "Project 1" "Design" "bob" (by decide) (by decide)⟩

/-- Claim C10: the Reset PIN handler sets the pin of the user holding the
target id to the literal "0000", preserving that user's other fields and
leaving every other user record (decomposed around the unique occurrence of
the target id) unchanged. -/
theorem reset_pin_sets_only_target (users1 users2 : List User) (u : User)
    (target_id : Nat) (hid : u.id = target_id)
    (h1 : ∀ x ∈ users1, x.id ≠ target_id) (h2 : ∀ x ∈ users2, x.id ≠ target_id) :
    reset_pin (users1 ++ u :: users2) target_id =
      users1 ++ { u with pin := "0000" } :: users2 := by
  unfold reset_pin
  rw [List.map_append, List.map_cons, if_pos hid]
  congr 1
  · conv_rhs => rw [← List.map_id users1]
    exact List.map_congr_left (fun x hx => by simp [if_neg (h1 x hx)])
  · congr 1
    conv_rhs => rw [← List.map_id users2]
    exact List.map_congr_left (fun x hx => by simp [if_neg (h2 x hx)])

/-- Witness for C10 at a concrete input: resetting the PIN of user id 1 in
a two-user store sets only alice's pin to "0000" and keeps bob's record. -/
theorem reset_pin_sets_only_target_witness :
    (⟨1, "alice", "member", some "Design", "1111"⟩ : User).id = 1 ∧
      reset_pin [⟨1, "alice", "member", some "Design", "1111"⟩,
                 ⟨2, "bob", "member", some "Design", "2222"⟩] 1 =
        [] ++ { (⟨1, "alice", "member", some "Design", "1111"⟩ : User) with pin := "0000" } ::
          [⟨2, "bob", "member", some "Design", "2222"⟩] :=
  ⟨rfl,
   reset_pin_sets_only_target [] [⟨2, "bob", "member", some "Design", "2222"⟩]
     ⟨1, "alice", "member", some "Design", "1111"⟩ 1 rfl
     (by intro x hx; cases hx) (by decide)⟩
